import Mathlib

/-!
# Verification of the RedoQ_ChatV1 crawl-and-ingest pipeline

Shallow embedding of the repository in Lean 4:

* `src/scraping/flightaware_scraper.py` — URL validity check, link
  extraction, page-data extraction, and the BFS crawl loop of
  `FlightAwareScraper`.  The Python `while` loop is modelled as a step
  function (`crawlStep`) iterated with explicit fuel (`crawlRun`);
  `crawlDone` is the exit condition of the loop, and the termination of
  the loop is proved as a theorem (sufficient fuel always exists).
* `src/vector-store/vector_database_manager.py` — `json_to_documents`
  of `JSONPineconeManager` (record-to-chunk conversion and metadata
  construction).
* `src/rag.py` / `src/app.py` — the error-handling skeleton of
  `get_response`, the `/chat` endpoint, the startup lifespan flag, and
  `clear_conversation`.

Network, HTML parsing and the hosted-AI collaborators are opaque: a
fetch world is a function `Url → Option Soup`, a parsed page (`Soup`)
carries the already-parsed values the scraper reads from BeautifulSoup
(title text, post-strip text content, anchor hrefs, meta tags, table
rows), and the LangChain/LangGraph stream is an abstract outcome value.
-/

/-! ## URL model

`urlparse` is modelled by keeping a URL in parsed form.  The scraper
only ever rebuilds `f"{scheme}://{netloc}{path}"` and re-parses it, so
for well-formed components (netloc without a slash, path starting with
a slash or empty) structural equality of `Url` values coincides with
string equality of the rendered URLs. -/

structure Url where
  scheme : String
  netloc : String
  path : String
  query : String
  fragment : String
deriving DecidableEq, Repr

/-- Drop the last path segment of a path, keeping the trailing slash,
as in the path-merge step of relative reference resolution. -/
def dropLastSegment (p : String) : String :=
  String.mk ((p.data.reverse.dropWhile (fun c => c ≠ '/')).reverse)

/-- Model of `urllib.parse.urljoin` restricted to what the scraper
needs: an absolute href wins outright; a relative href is resolved
against the base URL.  Dot-segment normalization is omitted — no claim
depends on the path text, only on scheme, host, query and fragment. -/
def urljoin (base href : Url) : Url :=
  if href.netloc ≠ "" then
    if href.scheme = "" then { href with scheme := base.scheme } else href
  else if href.path = "" ∧ href.query = "" ∧ href.fragment = "" then base
  else
    { scheme := base.scheme
      netloc := base.netloc
      path :=
        if href.path = "" then base.path
        else if href.path.data.headD ' ' = '/' then href.path
        else dropLastSegment base.path ++ href.path
      query := href.query
      fragment := href.fragment }

/-- `FlightAwareScraper.is_valid_url`: the url string is parsed and the
host is compared against the two hardcoded FlightAware hosts.  The
two base URLs of the scraper play no role here. -/
def is_valid_url (u : Url) : Bool :=
  u.netloc == "www.flightaware.com" || u.netloc == "flightaware.com"

/-! ## Parsed page model -/

/-- A meta tag as read by `extract_page_data`: the `name`, `property`
and `content` attributes (absent attribute = `none`). -/
structure MetaTag where
  name : Option String
  property : Option String
  content : Option String
deriving DecidableEq, Repr

/-- The values the scraper reads out of a parsed BeautifulSoup page:
`titleText` is the stripped text of the `title` tag when present,
`rawText` is `get_text(separator=..., strip=True)` after the
script/style/nav/footer/header elements were decomposed, `anchors` are
the (already URL-parsed) `href` attributes of `a[href]` tags in
document order, `metaTags` the `meta` tags, and `tableRows` the rows of
all tables flattened in document order, each row a list of cell
texts. -/
structure Soup where
  titleText : Option String
  rawText : String
  anchors : List Url
  metaTags : List MetaTag
  tableRows : List (List String)
deriving DecidableEq, Repr

/-- Python set semantics on an insertion-ordered duplicate-free list:
adding an element already present is a no-op. -/
def insertIfAbsent (l : List Url) (u : Url) : List Url :=
  if u ∈ l then l else l ++ [u]

/-- The body of the anchor loop of `extract_links`: resolve the href
against the current URL, strip query and fragment, and add the result
to the link set iff it passes `is_valid_url` and is not already in the
visited set. -/
def linkStep (visited : List Url) (currentUrl : Url) (links : List Url)
    (href : Url) : List Url :=
  let absolute := urljoin currentUrl href
  let clean : Url := { absolute with query := "", fragment := "" }
  if is_valid_url clean ∧ clean ∉ visited then insertIfAbsent links clean
  else links

/-- `FlightAwareScraper.extract_links`: fold the anchor loop over the
hyperlinks of the page; the empty set for an absent document.  The
Python `set` is modelled as an insertion-ordered duplicate-free list
(set iteration order is not observable by any claim). -/
def extract_links (visited : List Url) (soup : Option Soup) (currentUrl : Url) :
    List Url :=
  match soup with
  | none => []
  | some so => so.anchors.foldl (linkStep visited currentUrl) []

/-- Python `str.split()` (no argument) on a character list: maximal
runs of non-whitespace characters, with leading/trailing whitespace
dropped.  `acc` holds the current word reversed. -/
def pyWordsAux : List Char → List Char → List (List Char)
  | [], acc => if acc.isEmpty then [] else [acc.reverse]
  | c :: rest, acc =>
    if c.isWhitespace then
      if acc.isEmpty then pyWordsAux rest []
      else acc.reverse :: pyWordsAux rest []
    else pyWordsAux rest (c :: acc)

/-- Python `' '.join(words)`. -/
def joinWords : List String → String
  | [] => ""
  | [w] => w
  | w :: ws => w ++ " " ++ joinWords ws

/-- `' '.join(text.split())`: collapse every whitespace run to a single
space and drop leading/trailing whitespace, exactly as in
`extract_page_data`. -/
def normalizeWs (s : String) : String :=
  joinWords ((pyWordsAux s.data []).map (fun cs => String.mk cs))

/-- Python dict assignment `d[k] = v` on an insertion-ordered
association list: overwrite in place if the key exists, else append. -/
def dictInsert (d : List (String × String)) (k v : String) :
    List (String × String) :=
  if d.any (fun p => p.1 = k) then
    d.map (fun p => if p.1 = k then (k, v) else p)
  else d ++ [(k, v)]

/-- Truthiness of `tag.get(attr)` for a string attribute: present and
non-empty. -/
def attrTruthy (o : Option String) : Bool :=
  o.getD "" ≠ ""

/-- The meta-tag loop of `extract_page_data`: key is `name` when truthy,
else `property` when truthy, else the tag is skipped; the value is
`content` defaulting to the empty string; later tags overwrite earlier
ones with the same key. -/
def extractMeta (tags : List MetaTag) : List (String × String) :=
  tags.foldl (fun acc tag =>
    if attrTruthy tag.name then
      dictInsert acc (tag.name.getD "") (tag.content.getD "")
    else if attrTruthy tag.property then
      dictInsert acc (tag.property.getD "") (tag.content.getD "")
    else acc) []

/-- The table loop of `extract_page_data`: every row with at least two
cells contributes `(cell₀, cell₁)` when both texts are non-empty, later
duplicates overwriting earlier ones. -/
def flightInfoOf (rows : List (List String)) : List (String × String) :=
  rows.foldl (fun acc cells =>
    match cells with
    | k :: v :: _ => if k ≠ "" ∧ v ≠ "" then dictInsert acc k v else acc
    | _ => acc) []

/-- One crawled page, as built by `extract_page_data`: the `flight_info`
key is modelled by `flightInfo` with the empty list standing for the
absent key. -/
structure PageRecord where
  url : Url
  title : String
  content : String
  metadata : List (String × String)
  flightInfo : List (String × String)
deriving DecidableEq, Repr

/-- `FlightAwareScraper.extract_page_data` on a present document (the
crawl loop guards the call with `if soup:`). -/
def extract_page_data (soup : Soup) (url : Url) : PageRecord :=
  { url := url
    title := soup.titleText.getD ""
    content := normalizeWs soup.rawText
    metadata := extractMeta soup.metaTags
    flightInfo := flightInfoOf soup.tableRows }

/-! ## Crawl loop

`FlightAwareScraper.scrape` is a `while` loop over the frontier deque
and the visited set.  `fetched` and `delays` instrument the loop: every
call of `get_page_content` appends the url to `fetched`, and every
`time.sleep(1)` at the bottom of the loop body increments `delays`
(the `continue` of an already-visited url reaches neither). -/

structure CrawlState where
  frontier : List Url
  visited : List Url
  results : List PageRecord
  fetched : List Url
  delays : Nat
deriving DecidableEq, Repr

/-- The loop guard of `scrape`, negated: the loop exits when the
frontier is empty or the visited set has reached `max_pages`. -/
def crawlDone (maxPages : Nat) (s : CrawlState) : Bool :=
  s.frontier.isEmpty || !(s.visited.length < maxPages)

/-- One iteration of the `while` loop of `scrape`: pop the frontier;
skip (without fetch or delay) if already visited; otherwise mark
visited, fetch, on success append the page record when its content is
non-empty and enqueue the extracted links at the back, and sleep once.
A state the loop guard rejects is returned unchanged. -/
def crawlStep (fetchF : Url → Option Soup) (maxPages : Nat) (s : CrawlState) :
    CrawlState :=
  match s.frontier with
  | [] => s
  | url :: rest =>
    if s.visited.length < maxPages then
      if url ∈ s.visited then { s with frontier := rest }
      else
        let visited' := s.visited ++ [url]
        match fetchF url with
        | none =>
          { frontier := rest, visited := visited', results := s.results
            fetched := s.fetched ++ [url], delays := s.delays + 1 }
        | some soup =>
          let page := extract_page_data soup url
          let results' :=
            if page.content ≠ "" then s.results ++ [page] else s.results
          { frontier := rest ++ extract_links visited' (some soup) url
            visited := visited', results := results'
            fetched := s.fetched ++ [url], delays := s.delays + 1 }
    else s

/-- The crawl loop: iterate `crawlStep` until the loop guard fails,
bounded by an explicit fuel.  Termination (existence of sufficient
fuel for every state) is proved in `crawlRun_reaches_done`. -/
def crawlRun (fetchF : Url → Option Soup) (maxPages : Nat) :
    Nat → CrawlState → CrawlState
  | 0, s => s
  | fuel + 1, s =>
    if crawlDone maxPages s then s
    else crawlRun fetchF maxPages fuel (crawlStep fetchF maxPages s)

/-- The initial state of `scrape`: the frontier is the deque of base
URLs, everything else empty (`visited_urls` and `scraped_data` are
fresh in `__init__`). -/
def scrapeInit (baseUrls : List Url) : CrawlState :=
  { frontier := baseUrls, visited := [], results := [], fetched := [], delays := 0 }

/-! ## Ingestor: `JSONPineconeManager.json_to_documents`

The JSON records come from the scraper output file; a missing key in
the JSON object is an `Option.none` field. -/

/-- One JSON record as read by `json_to_documents`: `item.get('url',
'Unknown')` etc.; the `metadata` field is the meta-tag dictionary of
the scraped page (insertion-ordered, unique keys). -/
structure JsonRecord where
  url : Option String
  title : Option String
  content : Option String
  metadata : List (String × String)
deriving DecidableEq, Repr

/-- A document-metadata value: the Python dict mixes strings with the
integer `record_index`. -/
inductive MVal where
  | str (s : String)
  | num (n : Nat)
deriving DecidableEq, Repr

/-- A LangChain `Document`: page content plus metadata. -/
structure ChunkDoc where
  page_content : String
  metadata : List (String × MVal)
deriving DecidableEq, Repr

/-- The `doc_metadata` dict built in `json_to_documents` for record
number `idx`: the six ingestion fields, plus — only when the record
metadata dict is non-empty — `description` and `og_title` extracted
from it (each defaulting to the empty string).  No other key of the
record metadata is copied. -/
def docMetadata (jsonFileName indexName : String) (idx : Nat)
    (item : JsonRecord) : List (String × MVal) :=
  let base : List (String × MVal) :=
    [("source", .str jsonFileName), ("file_type", .str "json"),
     ("url", .str (item.url.getD "Unknown")),
     ("title", .str (item.title.getD "Unknown")),
     ("record_index", .num idx), ("index_name", .str indexName)]
  if item.metadata ≠ [] then
    base ++
      [("description", .str ((item.metadata.lookup "description").getD "")),
       ("og_title", .str ((item.metadata.lookup "og:title").getD ""))]
  else base

/-- The text to embed for a record:
`f"Title: {title}\n\nContent: {content}"`. -/
def recordFullContent (item : JsonRecord) : String :=
  "Title: " ++ item.title.getD "Unknown" ++ "\n\nContent: " ++
    item.content.getD ""

/-- The separator priority list of the `RecursiveCharacterTextSplitter`
configured in `JSONPineconeManager.__init__`. -/
def defaultSeparators : List String := ["\n\n", "\n", " ", ""]

/-- Fixed-window fallback split at arbitrary character boundaries:
windows of `maxSize` characters advancing by `step` characters, so
adjacent windows share `maxSize - step` characters of the original
text.  The fuel is the character count, which bounds the number of
windows. -/
def hardSplitAux (maxSize step : Nat) : Nat → List Char → List (List Char)
  | 0, cs => [cs]
  | fuel + 1, cs =>
    if cs.length ≤ maxSize then [cs]
    else cs.take maxSize :: hardSplitAux maxSize step fuel (cs.drop step)

/-- Greedy merge of separator-split pieces back into chunks of at most
`maxSize` characters, re-inserting the separator between pieces that
are joined. -/
def mergePieces (maxSize : Nat) (sep : String) (pieces : List String) :
    List String :=
  let step := pieces.foldl (fun (acc : List String × Option String) piece =>
    match acc.2 with
    | none => (acc.1, some piece)
    | some cur =>
      let joined := cur ++ sep ++ piece
      if joined.length ≤ maxSize then (acc.1, some joined)
      else (acc.1 ++ [cur], some piece)) ([], none)
  match step.2 with
  | none => step.1
  | some cur => step.1 ++ [cur]

/-- Character-boundary split with overlap: windows of `maxSize`
characters advancing by `maxSize - overlap` (at least one) characters
each time. -/
def hardSplit (maxSize overlap : Nat) (text : String) : List String :=
  (hardSplitAux maxSize (max 1 (maxSize - overlap)) text.length text.data).map
    (fun cs => String.mk cs)

/-- Modelled from the spec: the third-party
`RecursiveCharacterTextSplitter.split_text` is not under `src/`; §4.5
of the specification describes it as recursively attempting each
separator in priority order (merging the resulting pieces back up to
`max_size`), falling back to the next separator when a piece is still
too long, with the empty separator guaranteeing a split at arbitrary
character boundaries sharing `overlap` characters, and a text at or
under `max_size` returned as a single-element sequence unchanged. -/
def splitText (maxSize overlap : Nat) : List String → String → List String
  | [], text =>
    if text.length ≤ maxSize then [text] else hardSplit maxSize overlap text
  | sep :: restSeps, text =>
    if text.length ≤ maxSize then [text]
    else if sep = "" then hardSplit maxSize overlap text
    else
      let pieces := text.splitOn sep
      if pieces.all (fun p => p.length ≤ maxSize) then
        mergePieces maxSize sep pieces
      else splitText maxSize overlap restSeps text

/-- Modelled from the spec: chunks of a split document each carry a
copy of the parent document metadata, as `split_documents` of the
third-party splitter does (spec §2.5: "preserving metadata per
chunk"). -/
def splitDocuments (maxSize overlap : Nat) (doc : ChunkDoc) : List ChunkDoc :=
  (splitText maxSize overlap defaultSeparators doc.page_content).map
    (fun t => { page_content := t, metadata := doc.metadata })

/-- The per-record body of the `for idx, item in enumerate(json_data)`
loop of `json_to_documents`: one document for a short record, the
splitter output (each chunk with the same metadata) for a long one. -/
def recordDocuments (jsonFileName indexName : String) (idx : Nat)
    (item : JsonRecord) : List ChunkDoc :=
  let full := recordFullContent item
  let meta := docMetadata jsonFileName indexName idx item
  if full.length > 1000 then
    splitDocuments 1000 200 { page_content := full, metadata := meta }
  else [{ page_content := full, metadata := meta }]

/-- The enumeration loop of `json_to_documents`, carrying the running
record index. -/
def jsonToDocumentsFrom (jsonFileName indexName : String) :
    Nat → List JsonRecord → List ChunkDoc
  | _, [] => []
  | idx, item :: rest =>
    recordDocuments jsonFileName indexName idx item ++
      jsonToDocumentsFrom jsonFileName indexName (idx + 1) rest

/-- `JSONPineconeManager.json_to_documents` on already-loaded data. -/
def json_to_documents (jsonFileName indexName : String)
    (data : List JsonRecord) : List ChunkDoc :=
  jsonToDocumentsFrom jsonFileName indexName 0 data

/-! ## Service layer: `rag.py` / `app.py`

The chat model, the LangGraph stream and the checkpointer are opaque
collaborators; a request run is summarized by a `RunEvent` value saying
where (if anywhere) they raised.  Wall-clock timestamps are omitted
from the response model. -/

/-- The apostrophe character, used to spell the literal service
messages. -/
def apos : String := String.singleton (Char.ofNat 39)

/-- The fallback message of the inner stream-error handler of
`get_response`. -/
def techDiffMsg : String :=
  "I" ++ apos ++ "m experiencing some technical difficulties. " ++
    "Please try again or rephrase your question."

/-- The generic apology of the outer exception handler of
`get_response`. -/
def apologyMsg : String :=
  "I apologize, but I encountered an error while processing your " ++
    "message. Please try again. If the problem persists, please contact support."

/-- The fallback used when the stream produced no response text. -/
def emptyRespMsg : String :=
  "I" ++ apos ++ "m here to help, but I" ++ apos ++
    "m having trouble processing your message right now. " ++
    "Could you please try rephrasing your question?"

/-- The detail of the 503 raised by `/chat` when the system is not
initialized. -/
def notReadyDetail : String :=
  "FlightAware system is not initialized. Please check server logs."

/-- How one `get_response` run went, as far as the opaque collaborators
are concerned: `ok` carries the final message content and the contents
of the tool messages of the last stream state; `streamRaise` is an
exception out of `agent_executor.stream` or
`conversational_graph.stream` (caught by the inner handler);
`outerRaise` is an exception out of any other statement of the body
(caught by the outer handler). -/
inductive RunEvent where
  | ok (finalResponse : String) (toolContents : List String)
  | streamRaise (err : String)
  | outerRaise (err : String)
deriving DecidableEq, Repr

/-- The response dictionary of `get_response` (also the field set of the
`ChatResponse` model of `app.py` that is serialized to the client,
minus the wall-clock timestamp). -/
structure ResponseData where
  user_id : String
  query : String
  response : String
  mode : String
  data_source : String
  error : Option String
  status_code : Nat
deriving DecidableEq, Repr

/-- Contiguous-sublist test on character lists. -/
def listInfixOf : List Char → List Char → Bool
  | pat, [] => pat.isEmpty
  | pat, c :: rest => List.isPrefixOf pat (c :: rest) || listInfixOf pat rest

/-- Substring test, for the `"Data Source: JSON" in content` checks. -/
def containsSub (hay pat : String) : Bool :=
  listInfixOf pat.data hay.data

/-- The data-source classification of `get_response`: which of the two
marker strings occur among the tool-message contents. -/
def dataSourceLabel (toolContents : List String) : String :=
  let hasJson := toolContents.any (fun c => containsSub c "Data Source: JSON")
  let hasPdf := toolContents.any (fun c => containsSub c "Data Source: PDF")
  if hasJson && hasPdf then "both"
  else if hasJson then "json"
  else if hasPdf then "pdf"
  else "none"

/-- `rag.get_response`: build the response dict; a stream exception is
answered by the technical-difficulties fallback (status 500, no error
field); an empty generated response by the try-rephrasing fallback; any
other exception by the generic apology **plus the raw exception text in
the `error` field** (status 500). -/
def get_response (message uid : String) (useAgent : Bool) (ev : RunEvent) :
    ResponseData :=
  match ev with
  | .outerRaise e =>
    { user_id := uid, query := message, response := apologyMsg
      mode := "error", data_source := "none", error := some e
      status_code := 500 }
  | .streamRaise _ =>
    { user_id := uid, query := message, response := techDiffMsg
      mode := if useAgent then "agent" else "assistant"
      data_source := "none", error := none, status_code := 500 }
  | .ok finalResp toolContents =>
    if finalResp = "" then
      { user_id := uid, query := message, response := emptyRespMsg
        mode := if useAgent then "agent" else "assistant"
        data_source := "none", error := none, status_code := 200 }
    else
      { user_id := uid, query := message, response := finalResp
        mode := if useAgent then "agent" else "assistant"
        data_source := dataSourceLabel toolContents, error := none
        status_code := 200 }

/-- Result of one `/chat` request: either an `HTTPException` or a
serialized `ChatResponse` body. -/
inductive EndpointResult where
  | httpError (statusCode : Nat) (detail : String)
  | success (body : ResponseData)
deriving DecidableEq, Repr

/-- `app.chat_endpoint`: reject with 503 while the system flag is down,
otherwise forward to `get_response` and return its dictionary as the
response body (`get_response` is total, so the surrounding
`except` clause of the endpoint is not reachable from it). -/
def chat_endpoint (ready : Bool) (message uid : String) (useAgent : Bool)
    (ev : RunEvent) : EndpointResult :=
  if ready then .success (get_response message uid useAgent ev)
  else .httpError 503 notReadyDetail

/-- The `lifespan` startup handler of `app.py`: a raising
`initialize_rag_system` (modelled as `some err`) is caught, logged, and
leaves the global flag `False` without re-raising — the function stays
total, i.e. the process starts and serves in degraded mode. -/
def lifespanReadyFlag (initResult : Option String) : Bool :=
  initResult.isNone

/-! ## Conversation memory: `clear_conversation` -/

/-- The checkpointer state: per-thread message histories, keyed by the
thread id. -/
abbrev MemState := List (String × List String)

/-- `rag.get_user_config`: the thread id for a user. -/
def userThreadId (uid : String) : String := "user_" ++ uid

/-- The message history the checkpointer holds for a user. -/
def getHistory (st : MemState) (uid : String) : List String :=
  (st.lookup (userThreadId uid)).getD []

/-- `rag.clear_conversation`: the body is a single `print` — the
returned pair is (printed line, checkpointer state after the call). -/
def clear_conversation (uid : String) (st : MemState) : String × MemState :=
  ("🧹 Cleared conversation memory for user: " ++ uid, st)

/-! ## Concrete fixtures for witnesses and counterexamples -/

/-- The FlightAware front page URL. -/
def faHome : Url := ⟨"https", "www.flightaware.com", "/", "", ""⟩

/-- An in-domain page URL. -/
def faAbout : Url := ⟨"https", "www.flightaware.com", "/about", "", ""⟩

/-- An external seed URL (host `example.com`). -/
def exSeed : Url := ⟨"https", "example.com", "/", "", ""⟩

/-- An external absolute URL on a third host. -/
def otherSite : Url := ⟨"https", "othersite.org", "/x", "", ""⟩

/-- A caller-supplied seed URL carrying a query string and fragment. -/
def seedWithQuery : Url :=
  ⟨"https", "www.flightaware.com", "/search", "q=DL123", "top"⟩

/-- A concrete front page: one in-domain link, one external link. -/
def homeSoup : Soup :=
  { titleText := some "FlightAware"
    rawText := "  Flight  tracking   data "
    anchors := [faAbout, otherSite]
    metaTags := []
    tableRows := [] }

/-- A concrete leaf page with no links. -/
def aboutSoup : Soup :=
  { titleText := some "About"
    rawText := "About FlightAware"
    anchors := []
    metaTags := []
    tableRows := [] }

/-- A two-page world: the front page and the about page resolve,
everything else fails to fetch. -/
def wFetch (u : Url) : Option Soup :=
  if u = faHome then some homeSoup
  else if u = faAbout then some aboutSoup
  else none

/-- A world in which only the query-carrying seed resolves. -/
def qFetch (u : Url) : Option Soup :=
  if u = seedWithQuery then some aboutSoup else none

/-- A record whose metadata map holds a key the ingestor never
copies. -/
def itemWithKeywords : JsonRecord :=
  { url := some "https://www.flightaware.com/about"
    title := some "About"
    content := some "About FlightAware"
    metadata := [("keywords", "aviation tracking"), ("description", "About page")] }

/-! ## Helper lemmas -/

/-- A canonical URL in the sense of the data model: no query, no
fragment. -/
def canonicalUrl (u : Url) : Prop := u.query = "" ∧ u.fragment = ""

theorem mem_insertIfAbsent {l : List Url} {x u : Url}
    (h : u ∈ insertIfAbsent l x) : u ∈ l ∨ u = x := by
  unfold insertIfAbsent at h
  split at h
  · exact Or.inl h
  · rcases List.mem_append.1 h with h | h
    · exact Or.inl h
    · exact Or.inr (List.mem_singleton.1 h)

theorem mem_linkStep {visited links : List Url} {cur href u : Url}
    (h : u ∈ linkStep visited cur links href) :
    u ∈ links ∨ (is_valid_url u = true ∧ u ∉ visited ∧ canonicalUrl u) := by
  dsimp only [linkStep] at h
  split at h
  · rcases mem_insertIfAbsent h with h' | h'
    · exact Or.inl h'
    · subst h'
      rename_i hcond
      exact Or.inr ⟨hcond.1, hcond.2, rfl, rfl⟩
  · exact Or.inl h

/-- Every URL returned by `extract_links` passes the hardcoded host
check, is not in the visited set, and carries no query or fragment. -/
theorem mem_extract_links {visited : List Url} {soup : Option Soup}
    {cur u : Url} (h : u ∈ extract_links visited soup cur) :
    is_valid_url u = true ∧ u ∉ visited ∧ canonicalUrl u := by
  match soup with
  | none => simp [extract_links] at h
  | some so =>
    rw [extract_links] at h
    suffices H : ∀ (anchors : List Url) (acc : List Url),
        (∀ x ∈ acc, is_valid_url x = true ∧ x ∉ visited ∧ canonicalUrl x) →
        ∀ x ∈ anchors.foldl (linkStep visited cur) acc,
          is_valid_url x = true ∧ x ∉ visited ∧ canonicalUrl x by
      exact H so.anchors [] (by simp) u h
    intro anchors
    induction anchors with
    | nil => intro acc hacc x hx; exact hacc x hx
    | cons a rest ih =>
      intro acc hacc x hx
      refine ih (linkStep visited cur acc a) ?_ x hx
      intro y hy
      rcases mem_linkStep hy with hy' | hy'
      · exact hacc y hy'
      · exact hy'

theorem crawlDone_iff (mp : Nat) (s : CrawlState) :
    crawlDone mp s = true ↔ s.frontier = [] ∨ mp ≤ s.visited.length := by
  simp [crawlDone, List.isEmpty_iff, Nat.not_lt]

theorem crawlDone_false_iff (mp : Nat) (s : CrawlState) :
    crawlDone mp s = false ↔ s.frontier ≠ [] ∧ s.visited.length < mp := by
  simp [crawlDone, List.isEmpty_iff, Nat.not_lt]

theorem crawlStep_of_done {f : Url → Option Soup} {mp : Nat} {s : CrawlState}
    (h : crawlDone mp s = true) : crawlStep f mp s = s := by
  rcases (crawlDone_iff mp s).1 h with h' | h'
  · simp only [crawlStep, h']
  · cases hfr : s.frontier with
    | nil => simp only [crawlStep, hfr]
    | cons url rest =>
      simp only [crawlStep, hfr]
      rw [if_neg (Nat.not_lt.2 h')]

/-- Exhaustive description of one loop iteration: a state the guard
rejects is unchanged; otherwise the popped URL is either skipped
(already visited), or visited-and-fetched with the fetch failing, or
visited-and-fetched with the fetch succeeding. -/
theorem crawlStep_characterization (f : Url → Option Soup) (mp : Nat)
    (s : CrawlState) :
    (crawlDone mp s = true ∧ crawlStep f mp s = s) ∨
    (∃ url rest, s.frontier = url :: rest ∧ s.visited.length < mp ∧
      ((url ∈ s.visited ∧ crawlStep f mp s = { s with frontier := rest }) ∨
       (url ∉ s.visited ∧ f url = none ∧
         crawlStep f mp s =
           { frontier := rest, visited := s.visited ++ [url]
             results := s.results, fetched := s.fetched ++ [url]
             delays := s.delays + 1 }) ∨
       (url ∉ s.visited ∧ ∃ soup, f url = some soup ∧
         crawlStep f mp s =
           { frontier :=
               rest ++ extract_links (s.visited ++ [url]) (some soup) url
             visited := s.visited ++ [url]
             results :=
               if (extract_page_data soup url).content ≠ "" then
                 s.results ++ [extract_page_data soup url]
               else s.results
             fetched := s.fetched ++ [url], delays := s.delays + 1 }))) := by
  by_cases hd : crawlDone mp s = true
  · exact Or.inl ⟨hd, crawlStep_of_done hd⟩
  · have hd' := (crawlDone_false_iff mp s).1 (eq_false_of_ne_true hd)
    obtain ⟨hne, hlt⟩ := hd'
    cases hfr : s.frontier with
    | nil => exact absurd hfr hne
    | cons url rest =>
      refine Or.inr ⟨url, rest, rfl, hlt, ?_⟩
      by_cases hv : url ∈ s.visited
      · refine Or.inl ⟨hv, ?_⟩
        simp only [crawlStep, hfr]
        rw [if_pos hlt, if_pos hv]
      · cases hfu : f url with
        | none =>
          refine Or.inr (Or.inl ⟨hv, rfl, ?_⟩)
          simp only [crawlStep, hfr, hfu]
          rw [if_pos hlt, if_neg hv]
        | some soup =>
          refine Or.inr (Or.inr ⟨hv, soup, rfl, ?_⟩)
          simp only [crawlStep, hfr, hfu]
          rw [if_pos hlt, if_neg hv]

/-- A property preserved by one iteration is preserved by the whole
loop. -/
theorem crawlRun_preserve (P : CrawlState → Prop) (f : Url → Option Soup)
    (mp : Nat) (hstep : ∀ s, P s → P (crawlStep f mp s)) :
    ∀ (n : Nat) (s : CrawlState), P s → P (crawlRun f mp n s) := by
  intro n
  induction n with
  | zero => intro s hs; exact hs
  | succ n ih =>
    intro s hs
    unfold crawlRun
    split
    · exact hs
    · exact ih _ (hstep s hs)

theorem crawlRun_succ_of_not_done {f : Url → Option Soup} {mp : Nat}
    {s : CrawlState} (n : Nat) (h : crawlDone mp s = false) :
    crawlRun f mp (n + 1) s = crawlRun f mp n (crawlStep f mp s) := by
  show (if crawlDone mp s = true then s
    else crawlRun f mp n (crawlStep f mp s)) = _
  rw [if_neg (by simp [h])]

theorem crawlRun_of_done {f : Url → Option Soup} {mp : Nat} {s : CrawlState}
    (n : Nat) (h : crawlDone mp s = true) : crawlRun f mp n s = s := by
  cases n with
  | zero => rfl
  | succ n =>
    show (if crawlDone mp s = true then s
      else crawlRun f mp n (crawlStep f mp s)) = s
    rw [if_pos h]

/-- While the loop guard holds, one iteration either leaves the visited
set alone and strictly shortens the frontier (skip of an
already-visited URL), or grows the visited set by exactly one. -/
theorem crawlStep_measure (f : Url → Option Soup) (mp : Nat) (s : CrawlState)
    (h : crawlDone mp s = false) :
    ((crawlStep f mp s).visited.length = s.visited.length ∧
      (crawlStep f mp s).frontier.length < s.frontier.length) ∨
    (crawlStep f mp s).visited.length = s.visited.length + 1 := by
  rcases crawlStep_characterization f mp s with ⟨hd, _⟩ | ⟨url, rest, hfr, _, hc⟩
  · rw [hd] at h; cases h
  · rcases hc with ⟨_, heq⟩ | ⟨_, _, heq⟩ | ⟨_, _, _, heq⟩
    · exact Or.inl (by rw [heq, hfr]; simp)
    · exact Or.inr (by rw [heq]; simp)
    · exact Or.inr (by rw [heq]; simp)

/-- The crawl loop always reaches its exit condition: some finite fuel
suffices from any state.  (This is the termination of the `while` loop
of `scrape`.) -/
theorem crawlRun_reaches_done (f : Url → Option Soup) (mp : Nat)
    (s0 : CrawlState) : ∃ n, crawlDone mp (crawlRun f mp n s0) = true := by
  suffices H : ∀ k1 k2 (s : CrawlState), mp - s.visited.length ≤ k1 →
      s.frontier.length ≤ k2 →
      ∃ n, crawlDone mp (crawlRun f mp n s) = true from
    H _ _ s0 le_rfl le_rfl
  intro k1
  induction k1 with
  | zero =>
    intro k2 s h1 _
    refine ⟨0, ?_⟩
    exact (crawlDone_iff mp s).2 (Or.inr (by omega))
  | succ k1 ih1 =>
    intro k2
    induction k2 with
    | zero =>
      intro s _ h2
      refine ⟨0, ?_⟩
      exact (crawlDone_iff mp s).2 (Or.inl (List.length_eq_zero.1 (by omega)))
    | succ k2 ih2 =>
      intro s h1 h2
      by_cases hd : crawlDone mp s = true
      · exact ⟨0, hd⟩
      · have hd' := eq_false_of_ne_true hd
        rcases crawlStep_measure f mp s hd' with ⟨heq, hlt⟩ | hsucc
        · obtain ⟨n, hn⟩ := ih2 (crawlStep f mp s) (by omega) (by omega)
          exact ⟨n + 1, by rw [crawlRun_succ_of_not_done n hd']; exact hn⟩
        · have hlen : s.visited.length < mp :=
            ((crawlDone_false_iff mp s).1 hd').2
          obtain ⟨n, hn⟩ :=
            ih1 (crawlStep f mp s).frontier.length (crawlStep f mp s)
              (by omega) le_rfl
          exact ⟨n + 1, by rw [crawlRun_succ_of_not_done n hd']; exact hn⟩

/-- One iteration preserves: visited is duplicate-free, fetched is
duplicate-free, and every fetched URL is in the visited set. -/
theorem crawlStep_preserves_sets (f : Url → Option Soup) (mp : Nat)
    (s : CrawlState)
    (h : s.visited.Nodup ∧ s.fetched.Nodup ∧ s.fetched ⊆ s.visited) :
    (crawlStep f mp s).visited.Nodup ∧ (crawlStep f mp s).fetched.Nodup ∧
      (crawlStep f mp s).fetched ⊆ (crawlStep f mp s).visited := by
  obtain ⟨hv, hf, hsub⟩ := h
  rcases crawlStep_characterization f mp s with ⟨_, heq⟩ | ⟨url, rest, hfr, _, hc⟩
  · rw [heq]; exact ⟨hv, hf, hsub⟩
  · have hkey : ∀ (hvis : url ∉ s.visited),
        (s.visited ++ [url]).Nodup ∧ (s.fetched ++ [url]).Nodup ∧
          s.fetched ++ [url] ⊆ s.visited ++ [url] := by
      intro hvis
      have hnf : url ∉ s.fetched := fun hx => hvis (hsub hx)
      refine ⟨?_, ?_, ?_⟩
      · simp [List.nodup_append, hv, hvis]
      · simp [List.nodup_append, hf, hnf]
      · intro x hx
        rcases List.mem_append.1 hx with hx | hx
        · exact List.mem_append.2 (Or.inl (hsub hx))
        · exact List.mem_append.2 (Or.inr hx)
    rcases hc with ⟨_, heq⟩ | ⟨hvis, _, heq⟩ | ⟨hvis, _, _, heq⟩
    · rw [heq]; exact ⟨hv, hf, hsub⟩
    · rw [heq]; exact hkey hvis
    · rw [heq]; exact hkey hvis

/-- One iteration preserves: at most one page record per visited URL
and the `max_pages` ceiling on the visited set. -/
theorem crawlStep_preserves_counts (f : Url → Option Soup) (mp : Nat)
    (s : CrawlState)
    (h : s.results.length ≤ s.visited.length ∧ s.visited.length ≤ mp) :
    (crawlStep f mp s).results.length ≤ (crawlStep f mp s).visited.length ∧
      (crawlStep f mp s).visited.length ≤ mp := by
  obtain ⟨h1, h2⟩ := h
  rcases crawlStep_characterization f mp s with ⟨_, heq⟩ |
    ⟨url, rest, hfr, hlt, hc⟩
  · rw [heq]; exact ⟨h1, h2⟩
  · rcases hc with ⟨_, heq⟩ | ⟨_, _, heq⟩ | ⟨_, soup, _, heq⟩
    · rw [heq]; exact ⟨h1, h2⟩
    · rw [heq]; simp; omega
    · rw [heq]
      constructor
      · simp only []
        split
        · simp; omega
        · simp; omega
      · simp; omega

/-- One iteration preserves: every accumulated page record has
non-empty content. -/
theorem crawlStep_preserves_content (f : Url → Option Soup) (mp : Nat)
    (s : CrawlState) (h : ∀ p ∈ s.results, p.content ≠ "") :
    ∀ p ∈ (crawlStep f mp s).results, p.content ≠ "" := by
  rcases crawlStep_characterization f mp s with ⟨_, heq⟩ |
    ⟨url, rest, hfr, hlt, hc⟩
  · rw [heq]; exact h
  · rcases hc with ⟨_, heq⟩ | ⟨_, _, heq⟩ | ⟨_, soup, _, heq⟩
    · rw [heq]; exact h
    · rw [heq]; exact h
    · rw [heq]
      simp only []
      split
      · rename_i hcond
        intro p hp
        rcases List.mem_append.1 hp with hp | hp
        · exact h p hp
        · rw [List.mem_singleton.1 hp]; exact hcond
      · exact h

/-- One iteration preserves the record-URL invariant: every frontier
URL is a seed or canonical, every record URL is a seed or canonical,
record URLs are pairwise distinct, and every record URL is in the
visited set. -/
theorem crawlStep_preserves_urls (f : Url → Option Soup) (mp : Nat)
    (seeds : List Url) (s : CrawlState)
    (h : (∀ u ∈ s.frontier, u ∈ seeds ∨ canonicalUrl u) ∧
      (∀ p ∈ s.results, p.url ∈ seeds ∨ canonicalUrl p.url) ∧
      (s.results.map PageRecord.url).Nodup ∧
      (∀ p ∈ s.results, p.url ∈ s.visited)) :
    (∀ u ∈ (crawlStep f mp s).frontier, u ∈ seeds ∨ canonicalUrl u) ∧
      (∀ p ∈ (crawlStep f mp s).results, p.url ∈ seeds ∨ canonicalUrl p.url) ∧
      ((crawlStep f mp s).results.map PageRecord.url).Nodup ∧
      (∀ p ∈ (crawlStep f mp s).results, p.url ∈ (crawlStep f mp s).visited) := by
  obtain ⟨hfr1, hres1, hnd1, hsub1⟩ := h
  rcases crawlStep_characterization f mp s with ⟨_, heq⟩ |
    ⟨url, rest, hfr, hlt, hc⟩
  · rw [heq]; exact ⟨hfr1, hres1, hnd1, hsub1⟩
  · have hrest : ∀ u ∈ rest, u ∈ seeds ∨ canonicalUrl u := by
      intro u hu; exact hfr1 u (by rw [hfr]; exact List.mem_cons_of_mem _ hu)
    have hurl : url ∈ seeds ∨ canonicalUrl url :=
      hfr1 url (by rw [hfr]; exact List.mem_cons_self _ _)
    rcases hc with ⟨_, heq⟩ | ⟨hvis, _, heq⟩ | ⟨hvis, soup, _, heq⟩
    · rw [heq]
      exact ⟨hrest, hres1, hnd1, hsub1⟩
    · rw [heq]
      refine ⟨hrest, hres1, hnd1, ?_⟩
      intro p hp
      exact List.mem_append.2 (Or.inl (hsub1 p hp))
    · rw [heq]
      refine ⟨?_, ?_, ?_, ?_⟩
      · intro u hu
        rcases List.mem_append.1 hu with hu | hu
        · exact hrest u hu
        · exact Or.inr (mem_extract_links hu).2.2
      · simp only []
        split
        · intro p hp
          rcases List.mem_append.1 hp with hp | hp
          · exact hres1 p hp
          · rw [List.mem_singleton.1 hp]; exact hurl
        · exact hres1
      · simp only []
        split
        · rw [List.map_append]
          simp only [List.map_cons, List.map_nil]
          rw [List.nodup_append]
          refine ⟨hnd1, List.nodup_singleton _, ?_⟩
          intro x hx hx'
          rcases List.mem_map.1 hx with ⟨p, hp, hpx⟩
          rw [List.mem_singleton.1 hx'] at hpx
          have hpu : p.url = url := hpx
          exact hvis (hpu ▸ hsub1 p hp)
        · exact hnd1
      · simp only []
        split
        · intro p hp
          rcases List.mem_append.1 hp with hp | hp
          · exact List.mem_append.2 (Or.inl (hsub1 p hp))
          · rw [List.mem_singleton.1 hp]
            exact List.mem_append.2 (Or.inr (List.mem_singleton.2 rfl))
        · intro p hp
          exact List.mem_append.2 (Or.inl (hsub1 p hp))

/-- The enumeration loop of the ingestor is the concatenation of the
per-record document lists, indexed from `start`. -/
theorem jsonToDocumentsFrom_eq_join (fn ix : String) :
    ∀ (data : List JsonRecord) (start : Nat),
      jsonToDocumentsFrom fn ix start data =
        ((data.enumFrom start).map
          (fun p => recordDocuments fn ix p.1 p.2)).flatten := by
  intro data
  induction data with
  | nil => intro start; simp [jsonToDocumentsFrom]
  | cons item rest ih =>
    intro start
    simp [jsonToDocumentsFrom, List.enumFrom, ih (start + 1)]

/-- Every document emitted for one record carries exactly the
`doc_metadata` dict of that record (chunks of a split record inherit
the parent document metadata unchanged). -/
theorem mem_recordDocuments_metadata {fn ix : String} {idx : Nat}
    {item : JsonRecord} {d : ChunkDoc}
    (h : d ∈ recordDocuments fn ix idx item) :
    d.metadata = docMetadata fn ix idx item := by
  dsimp only [recordDocuments] at h
  split at h
  · dsimp only [splitDocuments] at h
    rcases List.mem_map.1 h with ⟨t, _, hd⟩
    rw [← hd]
  · rw [List.mem_singleton.1 h]

/-! ## Claims -/

/-- Claim C1 (corrected): every URL retained by link extraction is
resolved, stripped of query and fragment, not yet visited, and its host
belongs to the fixed two-element whitelist
`www.flightaware.com` / `flightaware.com` hardcoded in `is_valid_url`.
The crawl domain is not derived from the seed, so the original claim
that extraction never returns a host differing from the seed host fails
(see the counterexample). -/
theorem extract_links_domain_whitelist (visited : List Url)
    (soup : Option Soup) (cur u : Url)
    (h : u ∈ extract_links visited soup cur) :
    (u.netloc = "www.flightaware.com" ∨ u.netloc = "flightaware.com") ∧
      u ∉ visited ∧ canonicalUrl u := by
  obtain ⟨hval, hnv, hcanon⟩ := mem_extract_links h
  refine ⟨?_, hnv, hcanon⟩
  simpa [is_valid_url] using hval

/-- Witness for C1 at a concrete page: the in-domain link of the
example front page is retained and satisfies the amended contract. -/
theorem extract_links_domain_whitelist_witness :
    (faAbout.netloc = "www.flightaware.com" ∨
      faAbout.netloc = "flightaware.com") ∧
      faAbout ∉ ([] : List Url) ∧ canonicalUrl faAbout :=
  extract_links_domain_whitelist [] (some homeSoup) exSeed faAbout (by decide)

/-- Counterexample to C1 as stated: crawling with seed host
`example.com`, extraction on the seed page returns a URL whose host is
`www.flightaware.com`, which differs from the seed host — the filter is
hardcoded, not derived from the seed. -/
theorem extract_links_foreign_seed_host :
    faAbout ∈ extract_links [] (some homeSoup) exSeed ∧
      faAbout.netloc ≠ exSeed.netloc := by decide

/-- Claim C2 (confirmed): visited-set semantics of the crawl loop.
From any state whose visited and fetched lists are duplicate-free with
every fetched URL already visited (in particular the initial state of a
run), the loop keeps the visited set duplicate-free (set semantics: a
URL is added at most once), keeps the fetch log duplicate-free (no URL
is fetched twice), and keeps every fetched URL inside the visited set
(a URL is marked visited at the moment it is popped, before its fetch).
Moreover, an iteration that pops an already-visited URL only drops it
from the frontier: no fetch (fetch log unchanged), no politeness delay
(delay counter unchanged), no other state change. -/
theorem crawl_visited_set_semantics (f : Url → Option Soup) (mp n : Nat)
    (s : CrawlState) (hv : s.visited.Nodup) (hf : s.fetched.Nodup)
    (hsub : s.fetched ⊆ s.visited) :
    ((crawlRun f mp n s).visited.Nodup ∧ (crawlRun f mp n s).fetched.Nodup ∧
      (crawlRun f mp n s).fetched ⊆ (crawlRun f mp n s).visited) ∧
    (∀ url rest, s.frontier = url :: rest → url ∈ s.visited →
      s.visited.length < mp →
      crawlStep f mp s = { s with frontier := rest }) := by
  constructor
  · exact crawlRun_preserve
      (fun t => t.visited.Nodup ∧ t.fetched.Nodup ∧ t.fetched ⊆ t.visited)
      f mp (fun t ht => crawlStep_preserves_sets f mp t ht) n s ⟨hv, hf, hsub⟩
  · intro url rest hfr hvis hlt
    simp only [crawlStep, hfr]
    rw [if_pos hlt, if_pos hvis]

/-- Witness for C2: a concrete two-iteration run keeps the visited set
duplicate-free, and a concrete skip iteration only pops the frontier. -/
theorem crawl_visited_set_semantics_witness :
    (crawlRun wFetch 5 2
      (⟨[faAbout], [faAbout], [], [], 0⟩ : CrawlState)).visited.Nodup ∧
    crawlStep wFetch 5 (⟨[faAbout], [faAbout], [], [], 0⟩ : CrawlState) =
      (⟨[], [faAbout], [], [], 0⟩ : CrawlState) :=
  ⟨(crawl_visited_set_semantics wFetch 5 2 _ (by decide) (by decide)
      (List.nil_subset _)).1.1,
   (crawl_visited_set_semantics wFetch 5 2 _ (by decide) (by decide)
      (List.nil_subset _)).2 faAbout [] rfl (by decide) (by decide)⟩

/-- Claim C3 (confirmed): during the whole crawl loop the number of
accumulated page records never exceeds the size of the visited set,
which never exceeds `max_pages`; the loop always reaches its exit
condition with some finite fuel (termination); and the exit condition
is exactly "frontier empty or page ceiling reached". -/
theorem crawl_bounds_and_termination (f : Url → Option Soup) (mp : Nat) :
    (∀ (n : Nat) (s : CrawlState), s.results.length ≤ s.visited.length →
      s.visited.length ≤ mp →
      (crawlRun f mp n s).results.length ≤
          (crawlRun f mp n s).visited.length ∧
        (crawlRun f mp n s).visited.length ≤ mp) ∧
    (∀ s : CrawlState, ∃ n, crawlDone mp (crawlRun f mp n s) = true) ∧
    (∀ s : CrawlState, crawlDone mp s = true ↔
      (s.frontier = [] ∨ mp ≤ s.visited.length)) := by
  refine ⟨?_, crawlRun_reaches_done f mp, crawlDone_iff mp⟩
  intro n s h1 h2
  exact crawlRun_preserve
    (fun t => t.results.length ≤ t.visited.length ∧ t.visited.length ≤ mp)
    f mp (fun t ht => crawlStep_preserves_counts f mp t ht) n s ⟨h1, h2⟩

/-- Witness for C3: a concrete run against a page ceiling of 1 respects
both bounds. -/
theorem crawl_bounds_and_termination_witness :
    (crawlRun wFetch 1 9 (scrapeInit [faHome])).results.length ≤
        (crawlRun wFetch 1 9 (scrapeInit [faHome])).visited.length ∧
      (crawlRun wFetch 1 9 (scrapeInit [faHome])).visited.length ≤ 1 :=
  (crawl_bounds_and_termination wFetch 1).1 9 (scrapeInit [faHome])
    (by decide) (by decide)

/-- Claim C4 (confirmed): a fetch failure on a dequeued URL is
non-fatal: that iteration records the URL as visited (and in the fetch
log), appends no page record, adds nothing to the frontier beyond the
pop, and leaves the loop to proceed; the URL stays in the visited set,
so it is never retried within the run. -/
theorem crawl_fetch_failure_nonfatal (f : Url → Option Soup) (mp : Nat)
    (s : CrawlState) (url : Url) (rest : List Url)
    (hfr : s.frontier = url :: rest) (hvis : url ∉ s.visited)
    (hlt : s.visited.length < mp) (hf : f url = none) :
    crawlStep f mp s =
      { frontier := rest, visited := s.visited ++ [url]
        results := s.results, fetched := s.fetched ++ [url]
        delays := s.delays + 1 } ∧
    url ∈ (crawlStep f mp s).visited := by
  have heq : crawlStep f mp s =
      { frontier := rest, visited := s.visited ++ [url]
        results := s.results, fetched := s.fetched ++ [url]
        delays := s.delays + 1 } := by
    simp only [crawlStep, hfr, hf]
    rw [if_pos hlt, if_neg hvis]
  refine ⟨heq, ?_⟩
  rw [heq]
  exact List.mem_append.2 (Or.inr (List.mem_singleton.2 rfl))

/-- Witness for C4: a concrete failing fetch produces exactly the
described state. -/
theorem crawl_fetch_failure_nonfatal_witness :
    crawlStep wFetch 5 (scrapeInit [otherSite]) =
      { frontier := [], visited := [otherSite], results := []
        fetched := [otherSite], delays := 1 } ∧
    otherSite ∈ (crawlStep wFetch 5 (scrapeInit [otherSite])).visited :=
  crawl_fetch_failure_nonfatal wFetch 5 (scrapeInit [otherSite]) otherSite []
    rfl (by decide) (by decide) (by decide)

/-- Claim C7 (confirmed): starting from a result list whose records all
have non-empty content (in particular the empty list of a fresh run),
every page record accumulated by the crawl loop has non-empty content —
a page with empty extracted content, like a failed fetch, contributes
no record. -/
theorem crawl_results_nonempty_content (f : Url → Option Soup) (mp n : Nat)
    (s : CrawlState) (h : ∀ p ∈ s.results, p.content ≠ "") :
    ∀ p ∈ (crawlRun f mp n s).results, p.content ≠ "" :=
  crawlRun_preserve (fun t => ∀ p ∈ t.results, p.content ≠ "") f mp
    (fun t ht => crawlStep_preserves_content f mp t ht) n s h

/-- Witness for C7: the record produced for the example front page in a
concrete run has non-empty content. -/
theorem crawl_results_nonempty_content_witness :
    (extract_page_data homeSoup faHome).content ≠ "" :=
  crawl_results_nonempty_content wFetch 5 4 (scrapeInit [faHome])
    (by simp [scrapeInit]) (extract_page_data homeSoup faHome) (by decide)

/-- Claim C9 (corrected): within a crawl run record URLs are pairwise
distinct (the `url` field is a unique key), and every record URL is
either one of the caller-supplied seeds or canonical (no query, no
fragment).  Seed URLs themselves are enqueued and recorded verbatim, so
the original claim that every record URL is canonical fails for seeds
carrying a query or fragment (see the counterexample). -/
theorem crawl_record_urls (f : Url → Option Soup) (mp n : Nat)
    (seeds : List Url) :
    ((crawlRun f mp n (scrapeInit seeds)).results.map PageRecord.url).Nodup ∧
    ∀ p ∈ (crawlRun f mp n (scrapeInit seeds)).results,
      p.url ∈ seeds ∨ canonicalUrl p.url := by
  have H := crawlRun_preserve
    (fun t => (∀ u ∈ t.frontier, u ∈ seeds ∨ canonicalUrl u) ∧
      (∀ p ∈ t.results, p.url ∈ seeds ∨ canonicalUrl p.url) ∧
      (t.results.map PageRecord.url).Nodup ∧
      (∀ p ∈ t.results, p.url ∈ t.visited))
    f mp (fun t ht => crawlStep_preserves_urls f mp seeds t ht) n
    (scrapeInit seeds)
    ⟨fun u hu => Or.inl hu, by simp [scrapeInit], by simp [scrapeInit],
      by simp [scrapeInit]⟩
  exact ⟨H.2.2.1, H.2.1⟩

/-- Witness for C9: in a concrete terminated run the record URLs are
distinct, and the record produced for the query-carrying seed is
covered by the seed disjunct. -/
theorem crawl_record_urls_witness :
    ((crawlRun qFetch 5 2
      (scrapeInit [seedWithQuery])).results.map PageRecord.url).Nodup ∧
    ((extract_page_data aboutSoup seedWithQuery).url ∈ [seedWithQuery] ∨
      canonicalUrl (extract_page_data aboutSoup seedWithQuery).url) :=
  ⟨(crawl_record_urls qFetch 5 2 [seedWithQuery]).1,
   (crawl_record_urls qFetch 5 2 [seedWithQuery]).2
     (extract_page_data aboutSoup seedWithQuery) (by decide)⟩

/-- Counterexample to C9 as stated: a caller-supplied seed with a query
string and fragment is fetched and recorded verbatim — the finished
run contains a page record whose URL still carries its query and
fragment, so not every record URL is canonical. -/
theorem seed_url_not_canonicalized :
    crawlDone 5 (crawlRun qFetch 5 2 (scrapeInit [seedWithQuery])) = true ∧
    (crawlRun qFetch 5 2
      (scrapeInit [seedWithQuery])).results.map PageRecord.url =
        [seedWithQuery] ∧
    seedWithQuery.query ≠ "" ∧ seedWithQuery.fragment ≠ "" := by decide

/-- Claim C5 (corrected): the ingestor emits, for record number `i`,
exactly the documents of `recordDocuments`, and every one of them —
including every chunk of a split record — carries exactly the
`doc_metadata` dict of that record: the six ingestion fields plus, when
the record metadata map is non-empty, the `description` and `og_title`
values extracted from it.  The original claim that the chunk metadata
is a copy of the full record metadata map fails: no other key of the
record metadata is copied (see the counterexample). -/
theorem json_documents_metadata (fn ix : String) (data : List JsonRecord) :
    json_to_documents fn ix data =
      ((data.enum.map (fun p => recordDocuments fn ix p.1 p.2)).flatten) ∧
    ∀ (i : Nat) (item : JsonRecord) (d : ChunkDoc),
      d ∈ recordDocuments fn ix i item →
      d.metadata = docMetadata fn ix i item := by
  constructor
  · rw [json_to_documents, jsonToDocumentsFrom_eq_join]
    rfl
  · intro i item d hd
    exact mem_recordDocuments_metadata hd

/-- Witness for C5: the single document of a concrete record carries
exactly the constructed `doc_metadata`. -/
theorem json_documents_metadata_witness :
    json_to_documents "flightaware_data.json" "flightaware-data"
        [itemWithKeywords] =
      (([itemWithKeywords].enum.map (fun p =>
        recordDocuments "flightaware_data.json" "flightaware-data"
          p.1 p.2)).flatten) ∧
    ({ page_content := recordFullContent itemWithKeywords
       metadata := docMetadata "flightaware_data.json" "flightaware-data" 0
         itemWithKeywords } : ChunkDoc).metadata =
      docMetadata "flightaware_data.json" "flightaware-data" 0
        itemWithKeywords :=
  ⟨(json_documents_metadata "flightaware_data.json" "flightaware-data"
      [itemWithKeywords]).1,
   (json_documents_metadata "flightaware_data.json" "flightaware-data"
      [itemWithKeywords]).2 0 itemWithKeywords _ (by decide)⟩

/-- Counterexample to C5 as stated: a record whose metadata map holds
the key `keywords` produces exactly one chunk, and that chunk carries
no `keywords` entry — the record metadata map is not copied into the
chunk metadata. -/
theorem chunk_metadata_not_full_copy :
    (json_to_documents "flightaware_data.json" "flightaware-data"
      [itemWithKeywords]).map (fun d => d.metadata.lookup "keywords") =
        [none] ∧
    itemWithKeywords.metadata.lookup "keywords" =
      some "aviation tracking" := by decide

/-- Claim C8 (confirmed): chunking is the identity on short input: a
text of at most 1000 characters is returned by the splitter as the
one-element sequence holding it unchanged, and the ingestor emits
exactly one chunk (the full text with its metadata) for a record whose
built text is at most 1000 characters — splitting into several pieces
can only happen above the threshold. -/
theorem chunker_short_text_identity :
    (∀ t : String, t.length ≤ 1000 →
      splitText 1000 200 defaultSeparators t = [t]) ∧
    (∀ (fn ix : String) (i : Nat) (item : JsonRecord),
      (recordFullContent item).length ≤ 1000 →
      recordDocuments fn ix i item =
        [{ page_content := recordFullContent item
           metadata := docMetadata fn ix i item }]) := by
  constructor
  · intro t ht
    simp only [defaultSeparators, splitText]
    rw [if_pos ht]
  · intro fn ix i item h
    dsimp only [recordDocuments]
    rw [if_neg (by omega)]

/-- Witness for C8 at concrete inputs: a short text passes through the
splitter unchanged, and a short record yields one chunk. -/
theorem chunker_short_text_identity_witness :
    splitText 1000 200 defaultSeparators "About FlightAware" =
      ["About FlightAware"] ∧
    recordDocuments "flightaware_data.json" "flightaware-data" 0
        itemWithKeywords =
      [{ page_content := recordFullContent itemWithKeywords
         metadata := docMetadata "flightaware_data.json" "flightaware-data" 0
           itemWithKeywords }] :=
  ⟨chunker_short_text_identity.1 "About FlightAware" (by decide),
   chunker_short_text_identity.2 "flightaware_data.json" "flightaware-data"
     0 itemWithKeywords (by decide)⟩

/-- Claim C6 (corrected): on any failing request the response message
field is a fixed generic string (the apology for an exception reaching
the outer handler, the technical-difficulties fallback for a stream
exception), and an uninitialized system rejects every request with a
503 instead of crashing (the startup handler swallows the
initialization error and lowers the ready flag).  The original claim
that the user-visible response does not contain the raw error text
fails: the outer handler stores the raw exception text in the `error`
field of the response body (see the counterexample). -/
theorem service_failure_responses (m u e : String) (a : Bool)
    (ev : RunEvent) :
    (get_response m u a (.outerRaise e)).response = apologyMsg ∧
    (get_response m u a (.outerRaise e)).error = some e ∧
    (get_response m u a (.outerRaise e)).status_code = 500 ∧
    (get_response m u a (.streamRaise e)).response = techDiffMsg ∧
    (get_response m u a (.streamRaise e)).error = none ∧
    (get_response m u a (.streamRaise e)).status_code = 500 ∧
    chat_endpoint false m u a ev = .httpError 503 notReadyDetail ∧
    lifespanReadyFlag (some e) = false :=
  ⟨rfl, rfl, rfl, rfl, rfl, rfl, rfl, rfl⟩

/-- Counterexample to C6 as stated: a request failing in the outer
handler is answered with the generic apology in the message field, but
the response body returned by the endpoint carries the raw exception
text in its `error` field — the user-visible response does contain raw
error text. -/
theorem service_error_field_exposes_raw_text :
    (get_response "q" "u1" false (.outerRaise "boom")).error = some "boom" ∧
    (get_response "q" "u1" false (.outerRaise "boom")).response =
      apologyMsg ∧
    chat_endpoint true "q" "u1" false (.outerRaise "boom") =
      .success (get_response "q" "u1" false (.outerRaise "boom")) :=
  ⟨rfl, rfl, rfl⟩

/-- Claim C10 (confirmed): `clear_conversation` only emits a log line:
the checkpointer state after the call is the state before it, so the
history retrievable for every user is unchanged — despite the API
surface advertising history clearing. -/
theorem clear_conversation_is_noop (uid : String) (st : MemState) :
    (clear_conversation uid st).2 = st ∧
    getHistory (clear_conversation uid st).2 uid = getHistory st uid :=
  ⟨rfl, rfl⟩
